import Mathlib

/-!
Verification development for the Brikkle RAG chatbot.

The development shallowly embeds the two core subsystems of the repository:
the in-memory conversational session store (`services/chat_history_service.py`,
class `ChatHistoryService`) and the retrieval engine
(`services/service.py`, class `RAGService`), together with the data shapes
from `schema.py` that they produce.

Modelling conventions:
* Wall-clock instants (`datetime.now()`) are abstract `Nat` time stamps passed
  explicitly to each operation that reads the clock.
* The Python `dict` of sessions is an association list of key/value pairs in
  insertion order; item assignment replaces the value at the existing key.
* Python floats carrying similarity scores are modelled as rationals `ℚ`;
  the score arithmetic `1 / (1 + d)` is exact in `ℚ`.
* Calls into external collaborators (the FAISS index, the Google embedding
  backend, the filesystem) are modelled by passing the outcome of the external
  call as an explicit argument (`Except` for fallible calls).
-/

/-- Python slice `l[-n:]` for `n > 0`: the last `n` elements of `l`
(the whole list when `n ≥ l.length`). -/
def takeLast (n : Nat) (l : List α) : List α :=
  l.drop (l.length - n)

/-- Python `k in d` / `d[k]` on the insertion-ordered dict, as association-list
lookup of the first (and, for a dict, only) binding of `k`. -/
def lookupKey (k : String) : List (String × β) → Option β
  | [] => none
  | (k2, v) :: rest => if k2 = k then some v else lookupKey k rest

/-- Python `d[k] = v` for a key already present: replace the value stored at
`k`, keeping the dict's insertion order. -/
def setKey (k : String) (v : β) : List (String × β) → List (String × β)
  | [] => []
  | (k2, v2) :: rest => if k2 = k then (k2, v) :: rest else (k2, v2) :: setKey k v rest

/-- One stored message of a session, as built by
`ChatHistoryService.add_message`: a dict with keys
`role`, `content`, `timestamp`, `metadata`. -/
structure StoredMessage where
  role : String
  content : String
  timestamp : Nat
  metadata : List (String × String)
deriving DecidableEq, Repr

/-- One session record, as built by `ChatHistoryService.create_session`:
a dict with keys `session_id`, `created_at`, `last_activity`, `messages`. -/
structure SessionData where
  session_id : String
  created_at : Nat
  last_activity : Nat
  messages : List StoredMessage
deriving DecidableEq, Repr

/-- The state of a `ChatHistoryService` instance: the session dict plus the
two constants fixed in `__init__` (`session_timeout` = 24 h,
`max_messages_per_session` = 5). -/
structure ChatHistoryService where
  sessions : List (String × SessionData)
  session_timeout : Nat
  max_messages_per_session : Nat
deriving DecidableEq, Repr

/-- `ChatMessage` from `schema.py`: only `role` and `content`. -/
structure ChatMessage where
  role : String
  content : String
deriving DecidableEq, Repr

/-- `ChatHistoryService.create_session`: insert a fresh session with empty
message list and `created_at = last_activity = now`. The generated uuid is
passed in as `new_id`. -/
def ChatHistoryService.create_session (svc : ChatHistoryService) (now : Nat)
    (new_id : String) : String × ChatHistoryService :=
  (new_id,
   { svc with sessions := svc.sessions ++ [(new_id, ⟨new_id, now, now, []⟩)] })

/-- The trimming step of `add_message`: append the new message, then, when the
list exceeds the cap, keep only the last `cap` messages
(`messages[-cap:]`). -/
def trimAppend (cap : Nat) (msgs : List StoredMessage) (m : StoredMessage) :
    List StoredMessage :=
  if cap < (msgs ++ [m]).length then takeLast cap (msgs ++ [m]) else msgs ++ [m]

/-- `ChatHistoryService.add_message`: `False` and no mutation when the session
id is unknown; otherwise append the message (timestamped `now`), refresh
`last_activity`, and trim to the last `max_messages_per_session` messages. -/
def ChatHistoryService.add_message (svc : ChatHistoryService) (now : Nat)
    (session_id role content : String) (metadata : List (String × String)) :
    Bool × ChatHistoryService :=
  match lookupKey session_id svc.sessions with
  | none => (false, svc)
  | some sd =>
      let m : StoredMessage := ⟨role, content, now, metadata⟩
      let sd2 : SessionData :=
        { sd with
          messages := trimAppend svc.max_messages_per_session sd.messages m,
          last_activity := now }
      (true, { svc with sessions := setKey session_id sd2 svc.sessions })

/-- `ChatHistoryService.get_session_history`: `[]` for an unknown id;
otherwise default the limit to `max_messages_per_session`, slice to the last
`limit` messages only when `limit and limit > 0` (so a supplied limit `≤ 0`
leaves the list unsliced), and project each stored message to a
`ChatMessage` of role and content. The limit is an `Int`, as a Python int
may be negative. -/
def ChatHistoryService.get_session_history (svc : ChatHistoryService)
    (session_id : String) (limit : Option Int) : List ChatMessage :=
  match lookupKey session_id svc.sessions with
  | none => []
  | some sd =>
      let lim : Int :=
        match limit with
        | none => (svc.max_messages_per_session : Int)
        | some l => l
      let msgs := if 0 < lim then takeLast lim.toNat sd.messages else sd.messages
      msgs.map (fun m => ⟨m.role, m.content⟩)

/-- `ChatHistoryService.cleanup_old_sessions`: with `cutoff = now - retention`,
delete every session whose `last_activity < cutoff` (equivalently
`last_activity + retention < now`, which avoids truncated subtraction) and
return the number deleted. -/
def ChatHistoryService.cleanup_old_sessions (svc : ChatHistoryService)
    (now : Nat) (retention : Nat) : Nat × ChatHistoryService :=
  let sessions_to_delete :=
    svc.sessions.filter (fun p => decide (p.2.last_activity + retention < now))
  (sessions_to_delete.length,
   { svc with
     sessions :=
       svc.sessions.filter (fun p => ! decide (p.2.last_activity + retention < now)) })

/-- `ChatHistoryService._is_session_active`: `now - last_activity` is within
the session timeout. -/
def ChatHistoryService._is_session_active (svc : ChatHistoryService) (now : Nat)
    (sd : SessionData) : Bool :=
  decide (now - sd.last_activity < svc.session_timeout)

/-- The dict returned by `ChatHistoryService.get_memory_stats`. -/
structure MemoryStats where
  total_sessions : Nat
  active_sessions : Nat
  total_messages : Nat
  max_messages_per_session : Nat
deriving DecidableEq, Repr

/-- `ChatHistoryService.get_memory_stats`: session count, count of sessions
within the activity timeout, total stored messages, and the cap. -/
def ChatHistoryService.get_memory_stats (svc : ChatHistoryService) (now : Nat) :
    MemoryStats :=
  { total_sessions := svc.sessions.length
    active_sessions :=
      (svc.sessions.filter (fun p => svc._is_session_active now p.2)).length
    total_messages := (svc.sessions.map (fun p => p.2.messages.length)).sum
    max_messages_per_session := svc.max_messages_per_session }

/-- The stored message that `add_message` builds from a `(role, content)` pair
at time `now`, with no metadata supplied. -/
def mkStored (now : Nat) (p : String × String) : StoredMessage :=
  ⟨p.1, p.2, now, []⟩

/-- A sequence of `add_message` calls on one session, in order (as the route
handler performs for the user turn and the assistant turn). -/
def addMessages (svc : ChatHistoryService) (now : Nat) (session_id : String)
    (msgs : List (String × String)) : ChatHistoryService :=
  msgs.foldl (fun acc p => (acc.add_message now session_id p.1 p.2 []).2) svc

/-- A langchain `Document`: content plus metadata. -/
structure Doc where
  page_content : String
  metadata : List (String × String)
deriving DecidableEq, Repr

/-- `SourceDocument` from `schema.py`: content, metadata and relevance
score. -/
structure SourceDocument where
  content : String
  metadata : List (String × String)
  score : ℚ
deriving DecidableEq, Repr

/-- The distance-to-similarity conversion inside
`RAGService.retrieve_documents`: `1 / (1 + score) if score > 0 else 1.0`. -/
def similarityOf (distance : ℚ) : ℚ :=
  if 0 < distance then 1 / (1 + distance) else 1

/-- `RAGService.retrieve_documents`. The body runs inside a `try` that
returns `[]` on any exception, so the embedding is a total function into a
plain list. `vectorstore` is `none` when `self.vectorstore is None` (then the
raised `ValueError` is caught by the same handler). `search_result` is the
outcome of the external call
`self.vectorstore.similarity_search_with_score(query, k=k)` — embedding the
query and searching the FAISS index — as a list of (document, distance)
pairs, or an error when the embedding provider or the index call raises.
Each surviving pair is converted to a similarity score and kept only when the
score reaches `score_threshold`, in search order. -/
def RAGService.retrieve_documents (vectorstore : Option Unit)
    (search_result : Except Unit (List (Doc × ℚ))) (score_threshold : ℚ) :
    List SourceDocument :=
  match vectorstore with
  | none => []
  | some _ =>
      match search_result with
      | .error _ => []
      | .ok docs_with_scores =>
          docs_with_scores.filterMap (fun ds =>
            let similarity_score := similarityOf ds.2
            if score_threshold ≤ similarity_score then
              some ⟨ds.1.page_content, ds.1.metadata, similarity_score⟩
            else none)

/-- `RAGService._load_vector_store`: try `FAISS.load_local`; on any exception
fall back to `_create_vector_store` ("Creating new vector store due to
loading error..."). `load_result` is the outcome of the external FAISS load;
`create_result` is the outcome of rebuilding from the knowledge-base source.
The vector-store handle is abstracted to a `Nat`. -/
def RAGService._load_vector_store (load_result create_result : Except Unit Nat) :
    Except Unit Nat :=
  match load_result with
  | .ok vs => .ok vs
  | .error _ => create_result

/-- `RAGService._initialize_vector_store`: when the vector-store directory
exists (`_vector_store_exists`), load it (with the load's internal fallback
to a rebuild); otherwise build a fresh store from the knowledge base. -/
def RAGService._initialize_vector_store (store_exists : Bool)
    (load_result create_result : Except Unit Nat) : Except Unit Nat :=
  if store_exists then RAGService._load_vector_store load_result create_result
  else create_result

/-- Modelled from the spec: the largest position `i` with `1 ≤ i ≤ bound` at
which the text read so far (`s.take i`) ends with the separator `sep`, i.e.
the rightmost break point of that boundary class within the size budget.
The `RecursiveCharacterTextSplitter` that the repository configures is
third-party library code, so the chunker is modelled from the spec's
algorithm description. -/
def lastSepBreak (s : List Char) (sep : List Char) (bound : Nat) : Option Nat :=
  (List.range (bound + 1)).reverse.find?
    (fun i => decide (0 < i) && sep.isSuffixOf (s.take i))

/-- Modelled from the spec: the break position for the next chunk — the
largest available boundary at or below `target_size` under the hierarchy
paragraph break `"\n\n"` > line break `"\n"` > sentence end `". "` >
whitespace `" "` (the separators configured on the splitter in
`RAGService.__init__`), falling back to an arbitrary character break at
exactly `target_size`. -/
def findBreak (s : List Char) (target_size : Nat) : Nat :=
  match lastSepBreak s [Char.ofNat 10, Char.ofNat 10] target_size with
  | some i => i
  | none =>
    match lastSepBreak s [Char.ofNat 10] target_size with
    | some i => i
    | none =>
      match lastSepBreak s [Char.ofNat 46, Char.ofNat 32] target_size with
      | some i => i
      | none =>
        match lastSepBreak s [Char.ofNat 32] target_size with
        | some i => i
        | none => target_size

/-- Modelled from the spec: the break actually used, forced past the overlap
so that the window always advances — a semantic boundary inside the overlap
region would reproduce already-emitted text, so the splitter falls back to
the arbitrary-character break at `target_size`. -/
def effBreak (target_size overlap : Nat) (s : List Char) : Nat :=
  let b0 := findBreak s target_size
  if overlap < b0 then b0 else target_size

/-- Modelled from the spec: `split(text, targetSize, overlap)`. A text no
longer than `target_size` is a single chunk (none for empty text); otherwise
emit the text up to the chosen break and restart `overlap` characters before
that break, so each later chunk begins `overlap` characters before the prior
chunk's end. The `max … 1` guard only forces progress in the degenerate
parameter regime `target_size ≤ overlap`, which the theorems exclude. -/
def splitText (target_size overlap : Nat) (s : List Char) : List (List Char) :=
  if s.length ≤ target_size then
    if s = [] then [] else [s]
  else
    s.take (effBreak target_size overlap s) ::
      splitText target_size overlap
        (s.drop (max (effBreak target_size overlap s - overlap) 1))
termination_by s.length
decreasing_by
  simp only [List.length_drop]
  omega

/-- `RAGService._load_and_split_documents`: read the knowledge-base file
(its content passed in as `content`) and split it with the configured
`chunk_size=1000`, `chunk_overlap=200`. -/
def RAGService._load_and_split_documents (content : List Char) :
    List (List Char) :=
  splitText 1000 200 content

/-- `RAGService._create_vector_store`: split the knowledge base and raise
`ValueError("No documents found in the knowledge base")` when no chunks were
produced; otherwise the store is built from the chunks (embedding and FAISS
construction abstracted to the chunk list itself). -/
def RAGService._create_vector_store (content : List Char) :
    Except String (List (List Char)) :=
  let documents := RAGService._load_and_split_documents content
  if documents = [] then .error ("No documents found in the knowledge base")
  else .ok documents

/-- A service state with one known empty session `"s"`, used to evaluate the
theorems on concrete inputs. -/
def svcW : ChatHistoryService :=
  { sessions := [("s", ⟨"s", 0, 0, []⟩)],
    session_timeout := 24, max_messages_per_session := 5 }

/-- A service state with one known session `"s"` holding a single stored
message, `last_activity = 100`. -/
def svcW1 : ChatHistoryService :=
  { sessions := [("s", ⟨"s", 0, 100, [⟨"user", "hi", 0, []⟩]⟩)],
    session_timeout := 24, max_messages_per_session := 5 }

/-- Seven (role, content) pairs to append in sequence. -/
def msgs7 : List (String × String) :=
  [("user", "m1"), ("assistant", "m2"), ("user", "m3"), ("assistant", "m4"),
   ("user", "m5"), ("assistant", "m6"), ("user", "m7")]

theorem takeLast_length (n : Nat) (l : List α) :
    (takeLast n l).length = min n l.length := by
  simp [takeLast]
  omega

theorem takeLast_of_le {n : Nat} {l : List α} (h : l.length ≤ n) :
    takeLast n l = l := by
  have h0 : l.length - n = 0 := by omega
  rw [takeLast, h0, List.drop_zero]

theorem takeLast_subset {n : Nat} {l : List α} {a : α}
    (h : a ∈ takeLast n l) : a ∈ l :=
  List.drop_subset _ l h

theorem takeLast_map (f : α → β) (n : Nat) (l : List α) :
    takeLast n (l.map f) = (takeLast n l).map f := by
  simp [takeLast, List.map_drop]

theorem takeLast_takeLast {m n : Nat} (h : m ≤ n) (xs : List α) :
    takeLast m (takeLast n xs) = takeLast m xs := by
  simp only [takeLast, List.length_drop, List.drop_drop]
  congr 1
  omega

theorem takeLast_append_of_le {n : Nat} (xs : List α) {ys : List α}
    (h : n ≤ ys.length) : takeLast n (xs ++ ys) = takeLast n ys := by
  simp only [takeLast, List.length_append, List.drop_append_eq_append_drop]
  rw [List.drop_eq_nil_of_le (by omega), List.nil_append]
  congr 1
  omega

theorem takeLast_append_of_ge {n : Nat} (xs : List α) {ys : List α}
    (h : ys.length ≤ n) :
    takeLast n (xs ++ ys) = takeLast (n - ys.length) xs ++ ys := by
  simp only [takeLast, List.length_append, List.drop_append_eq_append_drop]
  rw [show xs.length + ys.length - n - xs.length = 0 by omega, List.drop_zero]
  congr 2
  omega

theorem takeLast_append_takeLast (n : Nat) (xs ys : List α) :
    takeLast n (takeLast n xs ++ ys) = takeLast n (xs ++ ys) := by
  rcases le_or_lt n ys.length with h | h
  · rw [takeLast_append_of_le _ h, takeLast_append_of_le _ h]
  · rw [takeLast_append_of_ge _ (le_of_lt h), takeLast_append_of_ge _ (le_of_lt h),
      takeLast_takeLast (by omega)]

theorem lookupKey_setKey_self {k : String} {m : List (String × β)} {w : β}
    (v : β) (h : lookupKey k m = some w) :
    lookupKey k (setKey k v m) = some v := by
  induction m with
  | nil => simp [lookupKey] at h
  | cons p rest ih =>
      by_cases hk : p.1 = k
      · simp [lookupKey, setKey, hk]
      · simp only [lookupKey, setKey, hk, if_false, if_neg hk] at h ⊢
        exact ih h

theorem trimAppend_eq_takeLast (cap : Nat) (msgs : List StoredMessage)
    (m : StoredMessage) : trimAppend cap msgs m = takeLast cap (msgs ++ [m]) := by
  unfold trimAppend
  split
  · rfl
  · rw [takeLast_of_le (by omega)]

theorem foldl_trimAppend (cap : Nat) (ms : List StoredMessage) :
    ∀ init : List StoredMessage, init.length ≤ cap →
      ms.foldl (trimAppend cap) init = takeLast cap (init ++ ms) := by
  induction ms with
  | nil => intro init h; simp [takeLast_of_le h]
  | cons a ms ih =>
      intro init h
      rw [List.foldl_cons, trimAppend_eq_takeLast,
        ih _ (by rw [takeLast_length]; omega),
        takeLast_append_takeLast]
      simp

theorem addMessages_lookup (now : Nat) (sid : String)
    (L : List (String × String)) :
    ∀ (svc : ChatHistoryService) (sd : SessionData),
      lookupKey sid svc.sessions = some sd →
      ∃ sd2, lookupKey sid (addMessages svc now sid L).sessions = some sd2 ∧
        sd2.messages =
          L.foldl (fun ms p => trimAppend svc.max_messages_per_session ms
            (mkStored now p)) sd.messages := by
  induction L with
  | nil =>
      intro svc sd h
      exact ⟨sd, h, rfl⟩
  | cons p L ih =>
      intro svc sd h
      have hstep :
          addMessages svc now sid (p :: L) =
            addMessages (svc.add_message now sid p.1 p.2 []).2 now sid L := by
        simp [addMessages]
      have hadd :
          (svc.add_message now sid p.1 p.2 []).2 =
            { svc with
              sessions := setKey sid
                { sd with
                  messages := trimAppend svc.max_messages_per_session sd.messages
                    (mkStored now p),
                  last_activity := now } svc.sessions } := by
        simp [ChatHistoryService.add_message, h, mkStored]
      have hlook :
          lookupKey sid (svc.add_message now sid p.1 p.2 []).2.sessions =
            some { sd with
              messages := trimAppend svc.max_messages_per_session sd.messages
                (mkStored now p),
              last_activity := now } := by
        rw [hadd]
        exact lookupKey_setKey_self _ h
      obtain ⟨sd2, hl2, hm2⟩ := ih _ _ hlook
      refine ⟨sd2, by rw [hstep]; exact hl2, ?_⟩
      rw [hm2, hadd]
      simp [List.foldl_cons]

/-- C1: Session message-cap invariant. For every service state whose session
satisfies the cap, any sequence of `add_message` calls on that session leaves
its message list at the last `cap = 5` of the old messages followed by the
appended ones (so the list never exceeds 5 messages and the oldest are
evicted first), and once at least 5 messages have been appended the list is
exactly the last 5 appended messages in their original chronological
order. -/
theorem session_message_cap (svc : ChatHistoryService) (now : Nat)
    (sid : String) (sd : SessionData) (L : List (String × String))
    (h : lookupKey sid svc.sessions = some sd)
    (hcap : svc.max_messages_per_session = 5)
    (hlen : sd.messages.length ≤ 5) :
    ∃ sd2, lookupKey sid (addMessages svc now sid L).sessions = some sd2 ∧
      sd2.messages.length ≤ 5 ∧
      sd2.messages = takeLast 5 (sd.messages ++ L.map (mkStored now)) ∧
      (5 ≤ L.length → sd2.messages = takeLast 5 (L.map (mkStored now))) := by
  obtain ⟨sd2, hl, hm⟩ := addMessages_lookup now sid L svc sd h
  rw [hcap] at hm
  have hfold : sd2.messages = takeLast 5 (sd.messages ++ L.map (mkStored now)) := by
    rw [hm, ← List.foldl_map (mkStored now) (trimAppend 5) L sd.messages,
      foldl_trimAppend 5 (L.map (mkStored now)) sd.messages hlen]
  refine ⟨sd2, hl, ?_, hfold, ?_⟩
  · rw [hfold, takeLast_length]
    omega
  · intro h5
    rw [hfold, takeLast_append_of_le _ (by rw [List.length_map]; exact h5)]

/-- C1 witness: appending the seven messages `msgs7` to the empty session of
`svcW` leaves exactly the last five, in order. -/
theorem session_message_cap_witness :
    ∃ sd2, lookupKey "s" (addMessages svcW 1 "s" msgs7).sessions = some sd2 ∧
      sd2.messages.length ≤ 5 ∧
      sd2.messages = takeLast 5 (msgs7.map (mkStored 1)) := by
  obtain ⟨sd2, h1, h2, h3, h4⟩ :=
    session_message_cap svcW 1 "s" ⟨"s", 0, 0, []⟩ msgs7 (by decide) rfl (by decide)
  exact ⟨sd2, h1, h2, h4 (by decide)⟩

/-- C5: Append atomicity and activity refresh. An unknown session id makes
`add_message` return `False` with the store (hence `total_messages`) entirely
unchanged and no fault raised (the embedding is a total function); a known id
makes it return `True`, append the message as the session's last message, and
set that session's `last_activity` to the current time. -/
theorem append_atomicity (svc : ChatHistoryService) (now now2 : Nat)
    (sid role content : String) (md : List (String × String))
    (hcap : svc.max_messages_per_session = 5) :
    (lookupKey sid svc.sessions = none →
      svc.add_message now sid role content md = (false, svc) ∧
      ((svc.add_message now sid role content md).2.get_memory_stats now2).total_messages
        = (svc.get_memory_stats now2).total_messages) ∧
    (∀ sd, lookupKey sid svc.sessions = some sd →
      (svc.add_message now sid role content md).1 = true ∧
      ∃ sd2,
        lookupKey sid (svc.add_message now sid role content md).2.sessions = some sd2 ∧
        sd2.last_activity = now ∧
        sd2.messages.getLast? = some ⟨role, content, now, md⟩) := by
  constructor
  · intro h
    have : svc.add_message now sid role content md = (false, svc) := by
      unfold ChatHistoryService.add_message
      rw [h]
    exact ⟨this, by rw [this]⟩
  · intro sd h
    have hdef :
        svc.add_message now sid role content md =
          (true,
           { svc with
             sessions := setKey sid
               ({ sd with
                  messages := trimAppend svc.max_messages_per_session sd.messages
                    ⟨role, content, now, md⟩,
                  last_activity := now }) svc.sessions }) := by
      simp [ChatHistoryService.add_message, h]
    refine ⟨by rw [hdef], _, by rw [hdef]; exact lookupKey_setKey_self _ h, rfl, ?_⟩
    show (trimAppend svc.max_messages_per_session sd.messages _).getLast? = _
    rw [hcap, trimAppend_eq_takeLast,
      takeLast_append_of_ge sd.messages (by simp), List.getLast?_concat]

/-- C5 witness: on `svcW`, appending to the unknown id `"nonexistent"`
returns `False` and leaves the store unchanged, while appending to the known
id `"s"` returns `True`. -/
theorem append_atomicity_witness :
    svcW.add_message 1 "nonexistent" "user" "x" [] = (false, svcW) ∧
    (svcW.add_message 1 "s" "user" "x" []).1 = true :=
  ⟨((append_atomicity svcW 1 0 "nonexistent" "user" "x" [] rfl).1 (by decide)).1,
   ((append_atomicity svcW 1 0 "s" "user" "x" [] rfl).2 ⟨"s", 0, 0, []⟩ (by decide)).1⟩

/-- C4: Retrieval degradation. When the vector store is absent
(`self.vectorstore is None`) or the external embedding/search call fails,
`retrieve_documents` returns the empty list; the embedding is a total
function into a plain list, mirroring the `try`/`except` that absorbs every
fault instead of propagating it. -/
theorem retrieval_degradation (search_result : Except Unit (List (Doc × ℚ)))
    (vectorstore : Option Unit) (thr : ℚ) :
    RAGService.retrieve_documents none search_result thr = [] ∧
    RAGService.retrieve_documents vectorstore (.error ()) thr = [] := by
  refine ⟨rfl, ?_⟩
  cases vectorstore <;> rfl

/-- C7: Corrupt-index recovery. When the persisted index directory exists but
the load fails, initialization yields exactly the outcome of rebuilding from
the knowledge-base source (it never yields the load fault); a missing index
directory likewise leads straight to a fresh build. -/
theorem corrupt_index_recovery (load_result create_result : Except Unit Nat) :
    (load_result = .error () →
      RAGService._initialize_vector_store true load_result create_result
        = create_result) ∧
    RAGService._initialize_vector_store false load_result create_result
      = create_result := by
  constructor
  · intro h
    simp [RAGService._initialize_vector_store, RAGService._load_vector_store, h]
  · rfl

/-- C7 witness: with an existing directory whose load fails and a rebuild that
produces the store `7`, initialization returns the rebuilt store; with no
directory it likewise returns the fresh build. -/
theorem corrupt_index_recovery_witness :
    RAGService._initialize_vector_store true (.error ()) (.ok 7) = .ok 7 ∧
    RAGService._initialize_vector_store false (.error ()) (.ok 7) = .ok 7 :=
  ⟨(corrupt_index_recovery (.error ()) (.ok 7)).1 rfl,
   (corrupt_index_recovery (.error ()) (.ok 7)).2⟩

theorem similarityOf_le_one (d : ℚ) : similarityOf d ≤ 1 := by
  unfold similarityOf
  split
  · rw [div_le_one (by linarith)]
    linarith
  · exact le_refl 1

theorem similarityOf_antitone {a b : ℚ} (h : a ≤ b) :
    similarityOf b ≤ similarityOf a := by
  unfold similarityOf
  by_cases ha : 0 < a
  · rw [if_pos ha, if_pos (by linarith)]
    exact one_div_le_one_div_of_le (by linarith) (by linarith)
  · rw [if_neg ha]
    by_cases hb : 0 < b
    · rw [if_pos hb, div_le_one (by linarith)]
      linarith
    · rw [if_neg hb]

theorem retrieve_length_eq (results : List (Doc × ℚ)) (thr : ℚ) :
    (RAGService.retrieve_documents (some ()) (.ok results) thr).length =
      (results.filter (fun ds => decide (thr ≤ similarityOf ds.2))).length := by
  show (results.filterMap (fun ds =>
      if thr ≤ similarityOf ds.2 then
        some (⟨ds.1.page_content, ds.1.metadata, similarityOf ds.2⟩ : SourceDocument)
      else none)).length = _
  induction results with
  | nil => rfl
  | cons a l ih =>
      by_cases h : thr ≤ similarityOf a.2 <;>
        simp [List.filterMap_cons, List.filter_cons, h, ih]

/-- C2 (amended): Retrieval result contract. For every FAISS search outcome of
at most `k` (document, distance) pairs in ascending distance order,
`retrieve_documents` returns at most `k` passages, each passage's score lies
in `[scoreThreshold, 1]`, the sequence is descending by score (non-strictly:
two results at equal distance keep equal scores), and the result has exactly
one entry per search result clearing the threshold — fewer than `k` clearing
it gives a shorter result, never padding. -/
theorem retrieve_contract (results : List (Doc × ℚ)) (k : Nat) (thr : ℚ)
    (hk : results.length ≤ k)
    (hsorted : results.Pairwise (fun x y => x.2 ≤ y.2)) :
    (RAGService.retrieve_documents (some ()) (.ok results) thr).length ≤ k ∧
    (∀ d ∈ RAGService.retrieve_documents (some ()) (.ok results) thr,
      thr ≤ d.score ∧ d.score ≤ 1) ∧
    (RAGService.retrieve_documents (some ()) (.ok results) thr).Pairwise
      (fun x y => y.score ≤ x.score) ∧
    (RAGService.retrieve_documents (some ()) (.ok results) thr).length =
      (results.filter (fun ds => decide (thr ≤ similarityOf ds.2))).length := by
  have hdef : RAGService.retrieve_documents (some ()) (.ok results) thr =
      results.filterMap (fun ds =>
        if thr ≤ similarityOf ds.2 then
          some ⟨ds.1.page_content, ds.1.metadata, similarityOf ds.2⟩
        else none) := rfl
  refine ⟨?_, ?_, ?_, ?_⟩
  · rw [hdef]
    exact le_trans (List.length_filterMap_le _ _) hk
  · intro d hd
    rw [hdef] at hd
    rcases List.mem_filterMap.mp hd with ⟨ds, _, hds⟩
    by_cases hth : thr ≤ similarityOf ds.2
    · rw [if_pos hth] at hds
      cases hds
      exact ⟨hth, similarityOf_le_one _⟩
    · rw [if_neg hth] at hds
      cases hds
  · rw [hdef]
    refine List.Pairwise.filterMap _ ?_ hsorted
    intro a b hab x hx y hy
    simp only [Option.mem_def] at hx hy
    by_cases h1 : thr ≤ similarityOf a.2
    · rw [if_pos h1] at hx
      by_cases h2 : thr ≤ similarityOf b.2
      · rw [if_pos h2] at hy
        cases hx
        cases hy
        exact similarityOf_antitone hab
      · rw [if_neg h2] at hy
        cases hy
    · rw [if_neg h1] at hx
      cases hx
  · exact retrieve_length_eq results thr

/-- C2 witness: two search results at distances 0 and 3 with threshold 1/2 and
k = 5; at most 5 come back, descending, one per result clearing the
threshold. -/
theorem retrieve_contract_witness :
    (RAGService.retrieve_documents (some ())
        (.ok [(⟨"a", []⟩, 0), (⟨"b", []⟩, 3)]) (1/2)).length ≤ 5 ∧
    (RAGService.retrieve_documents (some ())
        (.ok [(⟨"a", []⟩, 0), (⟨"b", []⟩, 3)]) (1/2)).Pairwise
      (fun x y => y.score ≤ x.score) ∧
    (RAGService.retrieve_documents (some ())
        (.ok [(⟨"a", []⟩, 0), (⟨"b", []⟩, 3)]) (1/2)).length =
      (([(⟨"a", []⟩, 0), (⟨"b", []⟩, 3)] : List (Doc × ℚ)).filter
        (fun ds => decide ((1:ℚ)/2 ≤ similarityOf ds.2))).length := by
  obtain ⟨h1, h2, h3, h4⟩ :=
    retrieve_contract [(⟨"a", []⟩, 0), (⟨"b", []⟩, 3)] 5 (1/2) (by decide)
      (by simp [List.pairwise_cons])
  exact ⟨h1, h3, h4⟩

/-- C2 counterexample: a valid FAISS search outcome (two results at the equal
distance 1/2, ascending, within k = 5) on which the returned sequence has the
equal scores 2/3, 2/3 and so is not strictly descending by score — the code
never breaks distance ties, refuting the claim's strictness. -/
theorem retrieve_tie_not_strict :
    (([((⟨"a", []⟩ : Doc), (1/2 : ℚ)), (⟨"b", []⟩, 1/2)] : List (Doc × ℚ)).length ≤ 5 ∧
      ([((⟨"a", []⟩ : Doc), (1/2 : ℚ)), (⟨"b", []⟩, 1/2)] : List (Doc × ℚ)).Pairwise
        (fun x y => x.2 ≤ y.2)) ∧
    RAGService.retrieve_documents (some ())
        (.ok [(⟨"a", []⟩, 1/2), (⟨"b", []⟩, 1/2)]) 0 =
      [⟨"a", [], 2/3⟩, ⟨"b", [], 2/3⟩] ∧
    ¬ (RAGService.retrieve_documents (some ())
        (.ok [(⟨"a", []⟩, 1/2), (⟨"b", []⟩, 1/2)]) 0).Pairwise
      (fun x y => y.score < x.score) := by
  have hout : RAGService.retrieve_documents (some ())
      (.ok [(⟨"a", []⟩, 1/2), (⟨"b", []⟩, 1/2)]) 0 =
      [⟨"a", [], 2/3⟩, ⟨"b", [], 2/3⟩] := by
    show List.filterMap _ _ = _
    norm_num [List.filterMap_cons, similarityOf]
  refine ⟨⟨by decide, ?_⟩, hout, ?_⟩
  · simp [List.pairwise_cons]
  · rw [hout]
    simp [List.pairwise_cons]

theorem history_eq (svc : ChatHistoryService) (sid : String) (limit : Option Int)
    (sd : SessionData) (h : lookupKey sid svc.sessions = some sd) :
    svc.get_session_history sid limit =
      (if 0 < (match limit with
               | none => (svc.max_messages_per_session : Int)
               | some l => l)
       then takeLast (match limit with
               | none => (svc.max_messages_per_session : Int)
               | some l => l).toNat sd.messages
       else sd.messages).map (fun m => ⟨m.role, m.content⟩) := by
  unfold ChatHistoryService.get_session_history
  rw [h]

/-- C3 (amended): History contract. `get_session_history` returns `[]` for an
unknown id; for a known session it returns the most recent
`min(limit ?? cap, len(messages))` stored messages in chronological
oldest-first order (as the `takeLast` slice) whenever the limit is omitted or
positive; a supplied limit `≤ 0`, however, falls through the Python
`if limit and limit > 0` guard and returns all stored messages, not zero. -/
theorem history_contract (svc : ChatHistoryService) (sid : String)
    (limit : Option Int) (hcap : svc.max_messages_per_session = 5) :
    (lookupKey sid svc.sessions = none → svc.get_session_history sid limit = []) ∧
    (∀ sd, lookupKey sid svc.sessions = some sd →
      (limit = none →
        svc.get_session_history sid limit =
          (takeLast 5 sd.messages).map (fun m => ⟨m.role, m.content⟩)) ∧
      (∀ l : Int, limit = some l → 0 < l →
        svc.get_session_history sid limit =
          (takeLast l.toNat sd.messages).map (fun m => ⟨m.role, m.content⟩)) ∧
      (∀ l : Int, limit = some l → l ≤ 0 →
        svc.get_session_history sid limit =
          sd.messages.map (fun m => ⟨m.role, m.content⟩))) := by
  constructor
  · intro h
    unfold ChatHistoryService.get_session_history
    rw [h]
  · intro sd h
    refine ⟨?_, ?_, ?_⟩
    · intro hl
      subst hl
      rw [history_eq svc sid none sd h]
      simp [hcap]
    · intro l hl hpos
      subst hl
      rw [history_eq svc sid (some l) sd h]
      simp [hpos]
    · intro l hl hneg
      subst hl
      rw [history_eq svc sid (some l) sd h]
      simp [show ¬ (0 < l) by omega]

/-- C3 witness: on the one-message session of `svcW1`, a supplied limit of 1
returns the last `min(1, 1)` message, oldest-first. -/
theorem history_contract_witness :
    svcW1.get_session_history "s" (some 1) =
      (takeLast (Int.toNat 1) ([⟨"user", "hi", 0, []⟩] : List StoredMessage)).map
        (fun m => ⟨m.role, m.content⟩) :=
  (((history_contract svcW1 "s" (some 1) rfl).2
      ⟨"s", 0, 100, [⟨"user", "hi", 0, []⟩]⟩ (by decide)).2.1) 1 rfl (by norm_num)

/-- C3 counterexample: on a session holding one message, a supplied limit of 0
should, per the claim, yield `min(0, 1) = 0` messages, but the code returns
the full message list (length 1). -/
theorem history_limit_zero_counterexample :
    lookupKey "s" svcW1.sessions = some ⟨"s", 0, 100, [⟨"user", "hi", 0, []⟩]⟩ ∧
    svcW1.get_session_history "s" (some 0) = [⟨"user", "hi"⟩] ∧
    (svcW1.get_session_history "s" (some 0)).length ≠
      min (Int.toNat 0) ([⟨"user", "hi", 0, []⟩] : List StoredMessage).length :=
  ⟨by decide, by decide, by decide⟩

theorem length_filter_not_add (l : List α) (p : α → Bool) :
    (l.filter p).length + (l.filter (fun a => ! p a)).length = l.length := by
  induction l with
  | nil => rfl
  | cons a l ih =>
      cases h : p a <;> simp [List.filter_cons, h] <;> omega

/-- C6 (amended): Cleanup semantics. `cleanup_old_sessions` keeps exactly the
sessions whose `last_activity` is not strictly older than `now - retention`
and returns the number removed (removed + kept = total); with retention 0 it
empties the store provided every session's `last_activity` strictly precedes
`now` (a session touched at the very same instant survives, since the
comparison `last_activity < cutoff` is strict); with retention at least `now`
(the model's "infinity") it removes nothing and leaves the store intact. -/
theorem cleanup_semantics (svc : ChatHistoryService) (now retention : Nat) :
    (∀ p : String × SessionData,
      (p ∈ (svc.cleanup_old_sessions now retention).2.sessions ↔
        p ∈ svc.sessions ∧ ¬ (p.2.last_activity + retention < now))) ∧
    (svc.cleanup_old_sessions now retention).1 +
        (svc.cleanup_old_sessions now retention).2.sessions.length
      = svc.sessions.length ∧
    ((∀ p ∈ svc.sessions, p.2.last_activity < now) →
      (svc.cleanup_old_sessions now 0).2.sessions = []) ∧
    (now ≤ retention → svc.cleanup_old_sessions now retention = (0, svc)) := by
  refine ⟨?_, ?_, ?_, ?_⟩
  · intro p
    simp [ChatHistoryService.cleanup_old_sessions, List.mem_filter]
  · exact length_filter_not_add svc.sessions
      (fun p => decide (p.2.last_activity + retention < now))
  · intro hall
    simp only [ChatHistoryService.cleanup_old_sessions]
    rw [List.filter_eq_nil_iff]
    intro p hp
    simp
    exact hall p hp
  · intro hr
    have h1 : svc.sessions.filter
        (fun p => decide (p.2.last_activity + retention < now)) = [] := by
      rw [List.filter_eq_nil_iff]
      intro p hp
      simp
      omega
    have h2 : svc.sessions.filter
        (fun p => ! decide (p.2.last_activity + retention < now)) = svc.sessions := by
      rw [List.filter_eq_self]
      intro p hp
      simp
      omega
    simp only [ChatHistoryService.cleanup_old_sessions, h1, h2, List.length_nil]

/-- C6 witness: one instant after the last activity, retention 0 empties the
store, while a retention past `now` removes nothing. -/
theorem cleanup_semantics_witness :
    (svcW1.cleanup_old_sessions 101 0).2.sessions = [] ∧
    svcW1.cleanup_old_sessions 101 500 = (0, svcW1) :=
  ⟨(cleanup_semantics svcW1 101 0).2.2.1 (by decide),
   (cleanup_semantics svcW1 101 500).2.2.2 (by decide)⟩

/-- C6 counterexample: a session whose `last_activity` equals the current
instant survives `cleanup_old_sessions` with retention 0 (the code compares
`last_activity < cutoff` strictly), so cleanup with retention 0 does not
always empty the store as the claim states. -/
theorem cleanup_zero_counterexample :
    svcW1.cleanup_old_sessions 100 0 = (0, svcW1) ∧ svcW1.sessions ≠ [] :=
  ⟨by decide, by decide⟩

/-- C9: History projects messages to role and content only. Every
`ChatMessage` returned by `get_session_history` for a known session is
exactly the `⟨role, content⟩` projection of a stored message of that
session; the `ChatMessage` shape from `schema.py` has no timestamp or
metadata field, so neither is ever exposed. -/
theorem history_role_content_only (svc : ChatHistoryService) (sid : String)
    (limit : Option Int) (sd : SessionData)
    (h : lookupKey sid svc.sessions = some sd) :
    ∀ c ∈ svc.get_session_history sid limit,
      ∃ m ∈ sd.messages, c = ⟨m.role, m.content⟩ := by
  intro c hc
  rw [history_eq svc sid limit sd h] at hc
  rcases List.mem_map.mp hc with ⟨m, hm, hcm⟩
  refine ⟨m, ?_, hcm.symm⟩
  by_cases h0 : 0 < (match limit with
    | none => (svc.max_messages_per_session : Int)
    | some l => l)
  · rw [if_pos h0] at hm
    exact takeLast_subset hm
  · rw [if_neg h0] at hm
    exact hm

/-- C9 witness: the message returned for session `"s"` of `svcW1` is the
role/content projection of its single stored message. -/
theorem history_role_content_only_witness :
    ∃ m ∈ ([⟨"user", "hi", 0, []⟩] : List StoredMessage),
      (⟨"user", "hi"⟩ : ChatMessage) = ⟨m.role, m.content⟩ :=
  history_role_content_only svcW1 "s" none
    ⟨"s", 0, 100, [⟨"user", "hi", 0, []⟩]⟩ (by decide) ⟨"user", "hi"⟩ (by decide)

theorem getLast?_takeLast_concat {n : Nat} (hn : 1 ≤ n) (l : List α) (a : α) :
    (takeLast n (l ++ [a])).getLast? = some a := by
  rw [takeLast_append_of_ge l (by simpa using hn), List.getLast?_concat]

/-- C10: Role is never validated. For every known session and every role
string whatsoever, `add_message` returns `True` and stores the message; the
stored list becomes the trimmed append (so the message counts toward the
5-message cap, the new length being `min 5 (old + 1)`), and
`get_session_history` returns it like any other message (here, as the most
recent entry). -/
theorem role_not_validated (svc : ChatHistoryService) (now : Nat)
    (sid role content : String) (md : List (String × String)) (sd : SessionData)
    (h : lookupKey sid svc.sessions = some sd)
    (hcap : svc.max_messages_per_session = 5) :
    (svc.add_message now sid role content md).1 = true ∧
    ∃ sd2, lookupKey sid (svc.add_message now sid role content md).2.sessions = some sd2 ∧
      sd2.messages = takeLast 5 (sd.messages ++ [⟨role, content, now, md⟩]) ∧
      sd2.messages.length = min 5 (sd.messages.length + 1) ∧
      ((svc.add_message now sid role content md).2.get_session_history sid none).getLast?
        = some ⟨role, content⟩ := by
  have hdef :
      svc.add_message now sid role content md =
        (true,
         { svc with
           sessions := setKey sid
             ({ sd with
                messages := trimAppend svc.max_messages_per_session sd.messages
                  ⟨role, content, now, md⟩,
                last_activity := now }) svc.sessions }) := by
    simp [ChatHistoryService.add_message, h]
  set sd2 : SessionData :=
    { sd with
      messages := trimAppend svc.max_messages_per_session sd.messages
        ⟨role, content, now, md⟩,
      last_activity := now } with hsd2
  have hmsg : sd2.messages = takeLast 5 (sd.messages ++ [⟨role, content, now, md⟩]) := by
    rw [hsd2]
    show trimAppend svc.max_messages_per_session sd.messages _ = _
    rw [hcap, trimAppend_eq_takeLast]
  have hlook : lookupKey sid (svc.add_message now sid role content md).2.sessions
      = some sd2 := by
    rw [hdef]
    exact lookupKey_setKey_self _ h
  have hcap2 : (svc.add_message now sid role content md).2.max_messages_per_session
      = 5 := by
    rw [hdef]
    exact hcap
  refine ⟨by rw [hdef], sd2, hlook, hmsg, ?_, ?_⟩
  · rw [hmsg, takeLast_length]
    simp
  · rw [history_eq _ sid none sd2 hlook]
    rw [hcap2]
    norm_num
    refine ⟨⟨role, content, now, md⟩, ?_, rfl, rfl⟩
    show (takeLast (Int.toNat 5) sd2.messages).getLast? = _
    rw [show Int.toNat 5 = 5 from rfl, hmsg, takeLast_takeLast (le_refl 5),
      getLast?_takeLast_concat (by norm_num)]

/-- C10 witness: the unrecognized role `"banana"` is accepted and returned by
history on session `"s"` of `svcW`. -/
theorem role_not_validated_witness :
    (svcW.add_message 1 "s" "banana" "x" []).1 = true ∧
    ((svcW.add_message 1 "s" "banana" "x" []).2.get_session_history "s" none).getLast?
      = some ⟨"banana", "x"⟩ := by
  obtain ⟨h1, sd2, h2, h3, h4, h5⟩ :=
    role_not_validated svcW 1 "s" "banana" "x" [] ⟨"s", 0, 0, []⟩ (by decide) rfl
  exact ⟨h1, h5⟩

theorem lastSepBreak_bounds {s sep : List Char} {bound i : Nat}
    (h : lastSepBreak s sep bound = some i) : 0 < i ∧ i ≤ bound := by
  have hmem := List.mem_of_find?_eq_some h
  have hp := List.find?_some h
  rw [List.mem_reverse, List.mem_range] at hmem
  rw [Bool.and_eq_true] at hp
  exact ⟨of_decide_eq_true hp.1, by omega⟩

theorem findBreak_bounds (s : List Char) (t : Nat) (ht : 0 < t) :
    0 < findBreak s t ∧ findBreak s t ≤ t := by
  unfold findBreak
  rcases h1 : lastSepBreak s [Char.ofNat 10, Char.ofNat 10] t with _ | i
  · rcases h2 : lastSepBreak s [Char.ofNat 10] t with _ | i
    · rcases h3 : lastSepBreak s [Char.ofNat 46, Char.ofNat 32] t with _ | i
      · rcases h4 : lastSepBreak s [Char.ofNat 32] t with _ | i
        · simp [h1, h2, h3, h4]
          omega
        · simp [h1, h2, h3, h4]
          exact lastSepBreak_bounds h4
      · simp [h1, h2, h3]
        exact lastSepBreak_bounds h3
    · simp [h1, h2]
      exact lastSepBreak_bounds h2
  · simp [h1]
    exact lastSepBreak_bounds h1

theorem effBreak_bounds (t o : Nat) (s : List Char) (hov : o < t) :
    o < effBreak t o s ∧ effBreak t o s ≤ t := by
  unfold effBreak
  by_cases h : o < findBreak s t
  · simp only [if_pos h]
    exact ⟨h, (findBreak_bounds s t (by omega)).2⟩
  · simp only [if_neg h]
    exact ⟨hov, le_refl t⟩

theorem splitText_mem (t o : Nat) (hov : o < t) :
    ∀ n, ∀ s : List Char, s.length ≤ n →
      ∀ c ∈ splitText t o s, c ≠ [] ∧ c.length ≤ t := by
  intro n
  induction n with
  | zero =>
      intro s hs c hc
      have hnil : s = [] := List.length_eq_zero.mp (by omega)
      subst hnil
      rw [splitText] at hc
      simp at hc
  | succ n ih =>
      intro s hs c hc
      rw [splitText] at hc
      by_cases hle : s.length ≤ t
      · rw [if_pos hle] at hc
        by_cases hnil : s = []
        · simp [hnil] at hc
        · rw [if_neg hnil] at hc
          rcases List.mem_singleton.mp hc with hcs
          subst hcs
          exact ⟨hnil, hle⟩
      · rw [if_neg hle] at hc
        have hb := effBreak_bounds t o s hov
        rcases List.mem_cons.mp hc with hc | hc
        · subst hc
          have hlen : (s.take (effBreak t o s)).length = effBreak t o s := by
            rw [List.length_take]
            omega
          constructor
          · intro hnil
            rw [hnil] at hlen
            simp at hlen
            omega
          · omega
        · refine ih _ ?_ c hc
          rw [List.length_drop]
          omega

theorem splitText_head (t o : Nat) (hov : o < t) (s : List Char)
    (hlen : o < s.length) :
    ∃ m, o < m ∧ m ≤ s.length ∧ (splitText t o s).head? = some (s.take m) := by
  rw [splitText]
  by_cases hle : s.length ≤ t
  · rw [if_pos hle]
    have hnil : ¬ s = [] := by
      intro h
      rw [h] at hlen
      simp at hlen
    rw [if_neg hnil]
    exact ⟨s.length, hlen, le_refl _, by simp⟩
  · rw [if_neg hle]
    have hb := effBreak_bounds t o s hov
    exact ⟨effBreak t o s, hb.1, by omega, rfl⟩

theorem splitText_chain (t o : Nat) (hov : o < t) :
    ∀ n, ∀ s : List Char, s.length ≤ n →
      (splitText t o s).Chain'
        (fun c1 c2 => c2.take o = c1.drop (c1.length - o)) := by
  intro n
  induction n with
  | zero =>
      intro s hs
      have hnil : s = [] := List.length_eq_zero.mp (by omega)
      subst hnil
      rw [splitText]
      simp
  | succ n ih =>
      intro s hs
      rw [splitText]
      by_cases hle : s.length ≤ t
      · rw [if_pos hle]
        by_cases hnil : s = [] <;> simp [hnil]
      · rw [if_neg hle]
        have hb := effBreak_bounds t o s hov
        rw [List.chain'_cons']
        have hadv : max (effBreak t o s - o) 1 = effBreak t o s - o := by omega
        constructor
        · intro c2 hc2
          have hrest : o < (s.drop (max (effBreak t o s - o) 1)).length := by
            rw [List.length_drop]
            omega
          obtain ⟨m, hom, hmle, hhead⟩ := splitText_head t o hov _ hrest
          rw [hhead, Option.mem_def, Option.some_inj] at hc2
          subst hc2
          rw [List.take_take, min_eq_left (by omega), hadv]
          have htb : (s.take (effBreak t o s)).length = effBreak t o s := by
            rw [List.length_take]
            omega
          rw [htb, List.drop_take]
          congr 1
          omega
        · refine ih _ ?_
          rw [List.length_drop]
          omega

/-- C8: Chunker contract (chunker modelled from the spec — see `splitText`).
For `overlap < targetSize`, every chunk is non-empty and at most
`targetSize` characters; each chunk after the first begins `overlap`
characters before the prior chunk's end (its first `overlap` characters are
the prior chunk's tail); a non-empty text no longer than `targetSize` yields
exactly one chunk; and an empty source document makes the index build of
`RAGService._create_vector_store` fail with the empty-knowledge-base
error. -/
theorem chunker_contract (target_size overlap : Nat) (s : List Char)
    (hov : overlap < target_size) :
    (∀ c ∈ splitText target_size overlap s, c ≠ [] ∧ c.length ≤ target_size) ∧
    (splitText target_size overlap s).Chain'
      (fun c1 c2 => c2.take overlap = c1.drop (c1.length - overlap)) ∧
    (s ≠ [] → s.length ≤ target_size → splitText target_size overlap s = [s]) ∧
    RAGService._create_vector_store [] =
      .error ("No documents found in the knowledge base") := by
  refine ⟨splitText_mem target_size overlap hov s.length s (le_refl _),
    splitText_chain target_size overlap hov s.length s (le_refl _), ?_, ?_⟩
  · intro hnil hle
    rw [splitText, if_pos hle, if_neg hnil]
  · unfold RAGService._create_vector_store RAGService._load_and_split_documents
    rw [splitText]
    norm_num

/-- C8 witness: the two-character text `"hi"` (code points 104, 105) with the
configured sizes 1000/200 yields exactly one chunk, and the empty document
fails the build with the empty-knowledge-base error. -/
theorem chunker_contract_witness :
    splitText 1000 200 ([Char.ofNat 104, Char.ofNat 105]) =
      [[Char.ofNat 104, Char.ofNat 105]] ∧
    RAGService._create_vector_store [] =
      .error ("No documents found in the knowledge base") :=
  ⟨(chunker_contract 1000 200 ([Char.ofNat 104, Char.ofNat 105])
      (by norm_num)).2.2.1 (by decide) (by decide),
   (chunker_contract 1000 200 ([Char.ofNat 104, Char.ofNat 105])
      (by norm_num)).2.2.2⟩
